import Mathlib

/-!
Verification of `scripts/create-linear-issues.py` (CCEM Linear issue creation
script). The script holds a literal tree of issue records (one epic, five
phases, four issues per phase), reads the epic's long-form description from
`linear-epic-ccem.md`, computes a total issue count, prints a summary, and
serializes the tree together with manual-import instructions to
`linear-issues-created.json` via `json.dumps(..., indent=2)`.

The embedding below translates the script's literal data and its `main`
function into Lean: the file read is modelled as a lookup in an explicit file
system (`String → Option String`), the raised `FileNotFoundError` as `none`,
printing as a list of output lines, and the single `write_text` call as an
explicit `(path, content)` pair.
-/

namespace CCEM

/-- `PROJECT_ID` constant of the script. -/
def PROJECT_ID : String := "4d649a6501f7"

/-- `TEAM_ID` constant of the script. -/
def TEAM_ID : String := "d96155e4-faea-4ccf-b8bc-36e53dc7f23f"

/-- The fixed relative path the epic description is read from (line 17). -/
def inputPath : String := "linear-epic-ccem.md"

/-- The fixed relative path the output document is written to (line 648). -/
def outputPath : String := "linear-issues-created.json"

/-- One sub-issue entry of the literal `ISSUES` data: a dict with keys
`title`, `priority`, `labels`, `description` (in that order). -/
structure Issue where
  title : String
  priority : Nat
  labels : List String
  description : String
deriving DecidableEq

/-- One phase entry of the literal `ISSUES` data: a dict with keys
`name` and `issues`. -/
structure Phase where
  name : String
  issues : List Issue
deriving DecidableEq

/-- The epic entry of the literal `ISSUES` data: a dict with keys
`title`, `description`, `priority`, `labels` (in that order). -/
structure Epic where
  title : String
  description : String
  priority : Nat
  labels : List String
deriving DecidableEq

/-- Phase 1 of the literal `ISSUES` data (src/scripts/create-linear-issues.py). -/
def phase1 : Phase :=
  ⟨"Phase 1: Foundation - TDD Setup (4-6 hours)",
   [⟨"Project Setup & Test Infrastructure", 1, ["phase-1", "testing", "infrastructure", "tdd"],
    "# Project Setup & Test Infrastructure\n\n## Overview\nInitialize TypeScript project with comprehensive test infrastructure using Jest, ts-jest, and ink-testing-library.\n\n## TDD Approach\n**RED**: Write failing tests for:\n- TypeScript configuration loading\n- Jest configuration validation\n- Test runner execution\n\n**GREEN**: Implement:\n- `package.json` with all dependencies\n- `tsconfig.json` with strict mode\n- `jest.config.js` with ts-jest preset\n- Coverage thresholds (95%)\n\n**REFACTOR**: Optimize configuration settings\n\n## Acceptance Criteria\n- [ ] TypeScript 5.3+ configured with strict mode\n- [ ] Jest 29+ with ts-jest preset configured\n- [ ] ink-testing-library installed and configured\n- [ ] Test coverage thresholds set to 95%\n- [ ] All tests passing\n- [ ] NPM scripts for test, test:watch, test:coverage\n\n## Dependencies\n```json\n\x7b\n  \"devDependencies\": \x7b\n    \"typescript\": \"^5.3.3\",\n    \"jest\": \"^29.7.0\",\n    \"ts-jest\": \"^29.1.1\",\n    \"@types/jest\": \"^29.5.11\",\n    \"ink-testing-library\": \"^3.0.0\",\n    \"@types/node\": \"^20.10.0\"\n  \x7d,\n  \"dependencies\": \x7b\n    \"ink\": \"^4.4.1\",\n    \"react\": \"^18.2.0\",\n    \"zod\": \"^3.22.4\"\n  \x7d\n\x7d\n```\n\n## Test Files\n- `tests/setup.test.ts` - Project setup validation\n- `tests/config.test.ts` - Configuration validation\n\n## Estimated Time\n4-5 hours\n\n🤖 Generated with [Claude Code](https://claude.com/claude-code)\nCo-Authored-By: Claude <noreply@anthropic.com>"⟩,
   ⟨"Schema Validation System (TDD)", 1, ["phase-1", "schema", "tdd", "zod"],
    "# Schema Validation System (TDD)\n\n## Overview\nImplement schema validation system using Zod with comprehensive test coverage for all CCEM schemas.\n\n## TDD Approach\n**RED**: Write failing tests for:\n- TUI structure schema validation\n- UUID format validation\n- Required field validation\n- Type checking\n\n**GREEN**: Implement:\n- Schema definitions with Zod\n- Validator functions\n- Error handling and reporting\n\n**REFACTOR**: Extract common patterns, improve error messages\n\n## Acceptance Criteria\n- [ ] All schemas defined with Zod (TUI, Config, Merge, etc.)\n- [ ] Validator functions with comprehensive error messages\n- [ ] 95%+ test coverage\n- [ ] Round-trip validation tests\n- [ ] Edge case coverage\n\n## Test Files\n- `tests/schema/validator.test.ts`\n- `tests/schema/tui-structure.test.ts`\n- `tests/schema/config.test.ts`\n\n## Implementation Files\n- `src/schema/validator.ts`\n- `src/schema/definitions.ts`\n- `src/schema/types.ts`\n\n## Estimated Time\n5-6 hours\n\n🤖 Generated with [Claude Code](https://claude.com/claude-code)\nCo-Authored-By: Claude <noreply@anthropic.com>"⟩,
   ⟨"TypeScript Configuration & Linting", 2, ["phase-1", "typescript", "tooling", "eslint"],
    "# TypeScript Configuration & Linting\n\n## Overview\nConfigure TypeScript compiler with strict mode and ESLint for code quality enforcement.\n\n## Configuration Requirements\n- TypeScript strict mode enabled\n- `noUncheckedIndexedAccess: true`\n- `exactOptionalPropertyTypes: true`\n- ESLint with TypeScript parser\n- Prettier integration\n\n## Acceptance Criteria\n- [ ] `tsconfig.json` configured for strict typing\n- [ ] ESLint configured with @typescript-eslint\n- [ ] Prettier configured and integrated\n- [ ] Pre-commit hooks with lint-staged\n- [ ] All files pass linting\n- [ ] NPM scripts for lint, format\n\n## Estimated Time\n2-3 hours\n\n🤖 Generated with [Claude Code](https://claude.com/claude-code)\nCo-Authored-By: Claude <noreply@anthropic.com>"⟩,
   ⟨"Documentation Standards Setup (TSDoc)", 2, ["phase-1", "documentation", "tsdoc", "typedoc"],
    "# Documentation Standards Setup (TSDoc)\n\n## Overview\nEstablish TSDoc documentation standards and configure TypeDoc for API documentation generation.\n\n## Requirements\n- TSDoc syntax for all public APIs\n- Required tags: @param, @returns, @throws, @example, @version, @since\n- TypeDoc configuration for HTML/Markdown output\n- Documentation linting\n\n## Acceptance Criteria\n- [ ] TypeDoc configured and working\n- [ ] TSDoc linting integrated with ESLint\n- [ ] Documentation templates created\n- [ ] Example documentation written\n- [ ] NPM scripts for doc generation\n\n## Estimated Time\n2-3 hours\n\n🤖 Generated with [Claude Code](https://claude.com/claude-code)\nCo-Authored-By: Claude <noreply@anthropic.com>"⟩]⟩

/-- Phase 2 of the literal `ISSUES` data (src/scripts/create-linear-issues.py). -/
def phase2 : Phase :=
  ⟨"Phase 2: Core TUI - TDD Implementation (8-10 hours)",
   [⟨"Menu Navigation System (TDD with Ink)", 1, ["phase-2", "tui", "ink", "tdd", "react"],
    "# Menu Navigation System (TDD with Ink)\n\n## Overview\nBuild interactive menu navigation system using Ink and React with comprehensive testing using ink-testing-library.\n\n## TDD Approach\n**RED**: Write failing tests for:\n- Menu rendering with 10 items\n- Navigation between menus\n- Keyboard input handling\n- Menu state management\n\n**GREEN**: Implement:\n- Menu component with Ink\n- Navigation hooks\n- Keyboard event handlers\n- State management for current menu\n\n**REFACTOR**: Extract reusable components, optimize rendering\n\n## Acceptance Criteria\n- [ ] Main menu with 10 items renders correctly\n- [ ] Submenu navigation functional\n- [ ] Keyboard input (arrow keys, enter, escape) works\n- [ ] Menu state persists correctly\n- [ ] 95%+ test coverage with ink-testing-library\n- [ ] All tests using lastFrame(), rerender(), stdin patterns\n\n## Test Files\n- `tests/tui/menu.test.tsx`\n- `tests/tui/navigation.test.tsx`\n\n## Implementation Files\n- `src/tui/Menu.tsx`\n- `src/tui/Navigation.tsx`\n- `src/tui/hooks/useKeyboard.ts`\n\n## Estimated Time\n8-10 hours\n\n🤖 Generated with [Claude Code](https://claude.com/claude-code)\nCo-Authored-By: Claude <noreply@anthropic.com>"⟩,
   ⟨"Configuration File Parser (TDD)", 1, ["phase-2", "config", "parser", "tdd"],
    "# Configuration File Parser (TDD)\n\n## Overview\nImplement configuration file parser for Claude Code settings with schema validation.\n\n## TDD Approach\n**RED**: Write tests for parsing various config formats\n**GREEN**: Implement parser with error handling\n**REFACTOR**: Optimize and extract common patterns\n\n## Acceptance Criteria\n- [ ] Parse user-level settings.json\n- [ ] Parse project-level CLAUDE.md\n- [ ] Parse claude_code_config.json for MCP\n- [ ] Handle malformed JSON gracefully\n- [ ] Schema validation integration\n- [ ] 95%+ test coverage\n\n## Estimated Time\n6-7 hours\n\n🤖 Generated with [Claude Code](https://claude.com/claude-code)\nCo-Authored-By: Claude <noreply@anthropic.com>"⟩,
   ⟨"State Management System (TDD)", 1, ["phase-2", "state", "tdd"],
    "# State Management System (TDD)\n\n## Overview\nBuild state management system for application-wide state with persistence.\n\n## TDD Approach\nTest state updates, subscriptions, and persistence before implementation.\n\n## Acceptance Criteria\n- [ ] State store with TypeScript types\n- [ ] State subscription system\n- [ ] State persistence to disk\n- [ ] Undo/redo functionality\n- [ ] 95%+ test coverage\n\n## Estimated Time\n7-8 hours\n\n🤖 Generated with [Claude Code](https://claude.com/claude-code)\nCo-Authored-By: Claude <noreply@anthropic.com>"⟩,
   ⟨"File Operations Manager (TDD)", 2, ["phase-2", "files", "io", "tdd"],
    "# File Operations Manager (TDD)\n\n## Overview\nImplement safe file operations with atomic writes, backups, and rollback.\n\n## TDD Approach\nTest all file operations including failure scenarios before implementation.\n\n## Acceptance Criteria\n- [ ] Atomic file writes\n- [ ] Backup before modify\n- [ ] Rollback on failure\n- [ ] Permission checks\n- [ ] 95%+ test coverage with edge cases\n\n## Estimated Time\n5-6 hours\n\n🤖 Generated with [Claude Code](https://claude.com/claude-code)\nCo-Authored-By: Claude <noreply@anthropic.com>"⟩]⟩

/-- Phase 3 of the literal `ISSUES` data (src/scripts/create-linear-issues.py). -/
def phase3 : Phase :=
  ⟨"Phase 3: Merge System - TDD + Integration (6-8 hours)",
   [⟨"Merge Strategy Engine (TDD)", 1, ["phase-3", "merge", "strategies", "tdd"],
    "# Merge Strategy Engine (TDD)\n\n## Overview\nImplement 5 merge strategies (recommended, default, conservative, hybrid, custom) with comprehensive testing.\n\n## TDD Approach\nTest each strategy with various input configurations before implementation.\n\n## Acceptance Criteria\n- [ ] 5 merge strategies implemented\n- [ ] Strategy selection logic\n- [ ] Merge preview functionality\n- [ ] Round-trip validation tests\n- [ ] 95%+ test coverage\n\n## Estimated Time\n7-8 hours\n\n🤖 Generated with [Claude Code](https://claude.com/claude-code)\nCo-Authored-By: Claude <noreply@anthropic.com>"⟩,
   ⟨"Conflict Detection System (TDD)", 1, ["phase-3", "merge", "conflicts", "tdd"],
    "# Conflict Detection System (TDD)\n\n## Overview\nBuild conflict detection and resolution system for merge operations.\n\n## TDD Approach\nTest conflict scenarios before implementing detection logic.\n\n## Acceptance Criteria\n- [ ] Detect permission conflicts\n- [ ] Detect MCP server conflicts\n- [ ] Interactive conflict resolution\n- [ ] Conflict reporting\n- [ ] 95%+ test coverage\n\n## Estimated Time\n6-7 hours\n\n🤖 Generated with [Claude Code](https://claude.com/claude-code)\nCo-Authored-By: Claude <noreply@anthropic.com>"⟩,
   ⟨"Backup & Restore System (TDD)", 2, ["phase-3", "backup", "restore", "tdd"],
    "# Backup & Restore System (TDD)\n\n## Overview\nImplement backup and restore system with tar.gz compression.\n\n## TDD Approach\nTest backup creation, validation, and restoration before implementation.\n\n## Acceptance Criteria\n- [ ] Create tar.gz backups (level 9 compression)\n- [ ] Backup validation\n- [ ] Restore functionality\n- [ ] Incremental backups\n- [ ] 95%+ test coverage\n\n## Estimated Time\n5-6 hours\n\n🤖 Generated with [Claude Code](https://claude.com/claude-code)\nCo-Authored-By: Claude <noreply@anthropic.com>"⟩,
   ⟨"Security Audit Hooks", 2, ["phase-3", "security", "hooks"],
    "# Security Audit Hooks\n\n## Overview\nImplement post-merge security audit hooks for validation.\n\n## Acceptance Criteria\n- [ ] Post-merge security hook\n- [ ] Permission validation\n- [ ] Security reporting\n- [ ] Hook execution testing\n\n## Estimated Time\n3-4 hours\n\n🤖 Generated with [Claude Code](https://claude.com/claude-code)\nCo-Authored-By: Claude <noreply@anthropic.com>"⟩]⟩

/-- Phase 4 of the literal `ISSUES` data (src/scripts/create-linear-issues.py). -/
def phase4 : Phase :=
  ⟨"Phase 4: Fork Discovery - Advanced TDD (8-10 hours)",
   [⟨"Chat History Analyzer (TDD)", 1, ["phase-4", "fork-discovery", "chat-analysis", "tdd"],
    "# Chat History Analyzer (TDD)\n\n## Overview\nBuild chat history analysis system for fork point discovery.\n\n## TDD Approach\nTest with sample conversation data before implementing analysis logic.\n\n## Acceptance Criteria\n- [ ] Parse conversation history\n- [ ] Identify fork-worthy contexts\n- [ ] Extract file references\n- [ ] Topic clustering\n- [ ] 95%+ test coverage\n\n## Estimated Time\n8-9 hours\n\n🤖 Generated with [Claude Code](https://claude.com/claude-code)\nCo-Authored-By: Claude <noreply@anthropic.com>"⟩,
   ⟨"Git Worktree Detector (TDD)", 1, ["phase-4", "fork-discovery", "git", "tdd"],
    "# Git Worktree Detector (TDD)\n\n## Overview\nImplement git worktree detection and analysis system.\n\n## TDD Approach\nTest with mock git repositories before implementing detection.\n\n## Acceptance Criteria\n- [ ] Detect git worktrees\n- [ ] Analyze worktree structure\n- [ ] Extract branch information\n- [ ] Recommend fork strategies\n- [ ] 95%+ test coverage\n\n## Estimated Time\n6-7 hours\n\n🤖 Generated with [Claude Code](https://claude.com/claude-code)\nCo-Authored-By: Claude <noreply@anthropic.com>"⟩,
   ⟨"Context Extraction Engine (TDD)", 2, ["phase-4", "fork-discovery", "context", "tdd"],
    "# Context Extraction Engine (TDD)\n\n## Overview\nBuild context extraction engine for conversation and file analysis.\n\n## TDD Approach\nTest extraction with sample data before implementation.\n\n## Acceptance Criteria\n- [ ] Extract conversation contexts\n- [ ] Filter by topic/file/time\n- [ ] Build minimal complete context\n- [ ] Handle dependencies\n- [ ] 95%+ test coverage\n\n## Estimated Time\n7-8 hours\n\n🤖 Generated with [Claude Code](https://claude.com/claude-code)\nCo-Authored-By: Claude <noreply@anthropic.com>"⟩,
   ⟨"Conversation-to-Code Mapper (TDD)", 2, ["phase-4", "fork-discovery", "mapping", "tdd"],
    "# Conversation-to-Code Mapper (TDD)\n\n## Overview\nImplement mapper between conversation history and generated code artifacts.\n\n## TDD Approach\nTest mapping logic with known conversation-code pairs.\n\n## Acceptance Criteria\n- [ ] Map conversations to files\n- [ ] Track file creation/modification\n- [ ] Build dependency graph\n- [ ] Export mappings\n- [ ] 95%+ test coverage\n\n## Estimated Time\n6-7 hours\n\n🤖 Generated with [Claude Code](https://claude.com/claude-code)\nCo-Authored-By: Claude <noreply@anthropic.com>"⟩]⟩

/-- Phase 5 of the literal `ISSUES` data (src/scripts/create-linear-issues.py). -/
def phase5 : Phase :=
  ⟨"Phase 5: Quality & Deployment (4-6 hours)",
   [⟨"Comprehensive Test Suite (95%+ Coverage)", 1, ["phase-5", "testing", "coverage", "quality"],
    "# Comprehensive Test Suite (95%+ Coverage)\n\n## Overview\nEnsure comprehensive test coverage across all modules.\n\n## Acceptance Criteria\n- [ ] 95%+ overall coverage\n- [ ] Integration tests for all workflows\n- [ ] Edge case coverage\n- [ ] Performance tests\n- [ ] Coverage reports in CI\n\n## Estimated Time\n6-7 hours\n\n🤖 Generated with [Claude Code](https://claude.com/claude-code)\nCo-Authored-By: Claude <noreply@anthropic.com>"⟩,
   ⟨"TSDoc Documentation Complete", 1, ["phase-5", "documentation", "tsdoc"],
    "# TSDoc Documentation Complete\n\n## Overview\nComplete TSDoc documentation for all public APIs.\n\n## Acceptance Criteria\n- [ ] All public APIs documented\n- [ ] Examples for complex functions\n- [ ] Version tags on all exports\n- [ ] API reference generated\n- [ ] Documentation site deployed\n\n## Estimated Time\n5-6 hours\n\n🤖 Generated with [Claude Code](https://claude.com/claude-code)\nCo-Authored-By: Claude <noreply@anthropic.com>"⟩,
   ⟨"CI/CD Pipeline (GitHub Actions)", 1, ["phase-5", "cicd", "github-actions"],
    "# CI/CD Pipeline (GitHub Actions)\n\n## Overview\nSet up comprehensive CI/CD pipeline with GitHub Actions.\n\n## Acceptance Criteria\n- [ ] Automated testing on PR\n- [ ] Coverage reporting\n- [ ] TypeScript compilation check\n- [ ] Linting and formatting checks\n- [ ] Automated releases\n\n## Estimated Time\n4-5 hours\n\n🤖 Generated with [Claude Code](https://claude.com/claude-code)\nCo-Authored-By: Claude <noreply@anthropic.com>"⟩,
   ⟨"NPM Package Publishing", 2, ["phase-5", "npm", "publishing"],
    "# NPM Package Publishing\n\n## Overview\nPrepare and publish CCEM as NPM package.\n\n## Acceptance Criteria\n- [ ] Package configuration complete\n- [ ] README and documentation\n- [ ] Semantic versioning setup\n- [ ] Published to NPM\n- [ ] Installation verified\n\n## Estimated Time\n3-4 hours\n\n🤖 Generated with [Claude Code](https://claude.com/claude-code)\nCo-Authored-By: Claude <noreply@anthropic.com>"⟩]⟩

/-- The epic record of the literal `ISSUES` data; its description is the text read from `linear-epic-ccem.md`. -/
def epicOf (epic_description : String) : Epic :=
  ⟨"CCEM - Claude Code Environment Manager", epic_description, 1, ["epic", "ccem-core", "feature"]⟩
/-- The ordered list of phase records of the literal `ISSUES` data. -/
def phases : List Phase := [phase1, phase2, phase3, phase4, phase5]

/-- The whole `ISSUES` dictionary: the epic plus the list of phases. -/
structure IssueTree where
  epic : Epic
  phases : List Phase
deriving DecidableEq

/-- The literal `ISSUES` dictionary, parameterised by the text read from
`linear-epic-ccem.md` (the script reads it at import time, line 17). -/
def ISSUES (epic_description : String) : IssueTree :=
  ⟨epicOf epic_description, phases⟩

/-- `total_issues` as computed in `main` (lines 638-640): starts at 1 for the
epic and adds the length of each phase's issue list. -/
def total_issues : Nat :=
  phases.foldl (fun acc ph => acc + ph.issues.length) 1

/-! ### JSON documents

A JSON value as produced by the script: strings, (natural) numbers, arrays
and objects with ordered keys — the only shapes occurring in `output_data`. -/

mutual
inductive Json where
  | str : String → Json
  | num : Nat → Json
  | arr : JArr → Json
  | obj : JObj → Json

inductive JArr where
  | nil : JArr
  | cons : Json → JArr → JArr

inductive JObj where
  | nil : JObj
  | cons : String → Json → JObj → JObj
end

/-- Build a JSON array from a list of values. -/
def JArr.ofList : List Json → JArr
  | [] => .nil
  | x :: xs => .cons x (JArr.ofList xs)

/-- Back to a list of values. -/
def JArr.toList : JArr → List Json
  | .nil => []
  | .cons x xs => x :: xs.toList

/-- Build a JSON object from an ordered key/value list. -/
def JObj.ofList : List (String × Json) → JObj
  | [] => .nil
  | (k, v) :: kvs => .cons k v (JObj.ofList kvs)

/-- The ordered list of keys of a JSON object. -/
def JObj.keys : JObj → List String
  | .nil => []
  | .cons k _ kvs => k :: kvs.keys

/-- Value bound to the first occurrence of a key, as in a Python dict lookup
on the parsed document. -/
def JObj.lookup : JObj → String → Option Json
  | .nil, _ => none
  | .cons k v kvs, k' => if k = k' then some v else kvs.lookup k'

/-- Top-level keys of a JSON value (objects only). -/
def Json.topKeys : Json → List String
  | .obj kvs => kvs.keys
  | _ => []

/-- Field access on a JSON value (objects only). -/
def Json.get : Json → String → Option Json
  | .obj kvs, k => kvs.lookup k
  | _, _ => none

/-- A string value's payload. -/
def Json.asStr : Json → Option String
  | .str s => some s
  | _ => none

/-- A number value's payload. -/
def Json.asNum : Json → Option Nat
  | .num n => some n
  | _ => none

/-- An array value's elements. -/
def Json.asArr : Json → Option (List Json)
  | .arr xs => some xs.toList
  | _ => none

/-- Serialization of one sub-issue, key order as in the source dict. -/
def Issue.toJson (i : Issue) : Json :=
  .obj (JObj.ofList
    [("title", .str i.title),
     ("priority", .num i.priority),
     ("labels", .arr (JArr.ofList (i.labels.map Json.str))),
     ("description", .str i.description)])

/-- Serialization of one phase, key order as in the source dict. -/
def Phase.toJson (ph : Phase) : Json :=
  .obj (JObj.ofList
    [("name", .str ph.name),
     ("issues", .arr (JArr.ofList (ph.issues.map Issue.toJson)))])

/-- Serialization of the epic, key order as in the source dict. -/
def Epic.toJson (e : Epic) : Json :=
  .obj (JObj.ofList
    [("title", .str e.title),
     ("description", .str e.description),
     ("priority", .num e.priority),
     ("labels", .arr (JArr.ofList (e.labels.map Json.str)))])

/-- The literal `instructions` block of `output_data` (lines 655-671). -/
def instructionsJson : Json :=
  .obj (JObj.ofList
    [("method", .str "Use Linear MCP server or GraphQL API"),
     ("order", .arr (JArr.ofList
       [.str "1. Create Epic first and save its ID",
        .str "2. Create Phase 1 issues with parentId = epic_id",
        .str "3. Create Phase 2 issues with parentId = epic_id",
        .str "4. Create Phase 3 issues with parentId = epic_id",
        .str "5. Create Phase 4 issues with parentId = epic_id",
        .str "6. Create Phase 5 issues with parentId = epic_id"])),
     ("validation", .arr (JArr.ofList
       [.str "Verify all issues created successfully",
        .str "Verify parent-child relationships correct",
        .str "Verify all labels applied",
        .str "Verify project assignment correct"]))])

/-- The `output_data` dictionary of `main` (lines 649-672), as a JSON value. -/
def output_data (epic_description : String) : Json :=
  .obj (JObj.ofList
    [("project_id", .str PROJECT_ID),
     ("team_id", .str TEAM_ID),
     ("total_issues", .num total_issues),
     ("epic", (ISSUES epic_description).epic.toJson),
     ("phases", .arr (JArr.ofList ((ISSUES epic_description).phases.map Phase.toJson))),
     ("instructions", instructionsJson)])

/-! ### `json.dumps(..., indent=2)`

The serializer is modelled at the level of character lists and wrapped into a
`String` at the end; it follows Python's `json.dumps` with `indent=2` and the
default `ensure_ascii=True` exactly (separators, key separator `": "`,
`\uXXXX` escapes with surrogate pairs beyond the basic multilingual plane). -/

/-- A run of `n` spaces. -/
def spacesL (n : Nat) : List Char := List.replicate n ' '

/-- One lowercase hexadecimal digit (`0`-`9`, `a`-`f`). -/
def hexDigitChar (n : Nat) : Char :=
  if n < 10 then Char.ofNat (48 + n) else Char.ofNat (87 + n)

/-- Four lowercase hexadecimal digits, as in Python's `\uXXXX` escapes. -/
def hex4 (n : Nat) : List Char :=
  [hexDigitChar (n / 4096 % 16), hexDigitChar (n / 256 % 16),
   hexDigitChar (n / 16 % 16), hexDigitChar (n % 16)]

/-- One decimal digit. -/
def decDigitChar (n : Nat) : Char := Char.ofNat (48 + n)

/-- The decimal digit string of a natural number, most significant first —
how Python renders an `int` into JSON. -/
def natDecimal (n : Nat) : List Char :=
  if n < 10 then [decDigitChar n]
  else natDecimal (n / 10) ++ [decDigitChar (n % 10)]
decreasing_by exact Nat.div_lt_self (by omega) (by omega)

/-- Escaping of one character in a JSON string literal, following Python's
`json.dumps` default (`ensure_ascii=True`): the two-character shortcuts, then
the character itself for printable ASCII, then `\uXXXX`, with a surrogate
pair for code points beyond the basic multilingual plane. -/
def escapeChar (c : Char) : List Char :=
  if c = '"' then ['\\', '"']
  else if c = '\\' then ['\\', '\\']
  else if c = '\n' then ['\\', 'n']
  else if c = '\t' then ['\\', 't']
  else if c = '\r' then ['\\', 'r']
  else if c.toNat = 8 then ['\\', 'b']
  else if c.toNat = 12 then ['\\', 'f']
  else if 32 ≤ c.toNat ∧ c.toNat ≤ 126 then [c]
  else if c.toNat < 65536 then '\\' :: 'u' :: hex4 c.toNat
  else
    '\\' :: 'u' :: hex4 (55296 + (c.toNat - 65536) / 1024) ++
    ('\\' :: 'u' :: hex4 (56320 + (c.toNat - 65536) % 1024))

/-- The escaped body of a JSON string literal. -/
def escChars (s : String) : List Char := s.data.flatMap escapeChar

/-- A quoted, escaped JSON string literal. -/
def quoteJ (s : String) : List Char := '"' :: escChars s ++ ['"']

mutual
/-- `json.dumps` with `indent=2`, at a given current indentation. -/
def dumpsVal : Json → Nat → List Char
  | .str s, _ => quoteJ s
  | .num n, _ => natDecimal n
  | .arr .nil, _ => ['[', ']']
  | .arr (.cons x xs), ind =>
      '[' :: '\n' :: dumpsElems (JArr.cons x xs) (ind + 2) ++
      '\n' :: spacesL ind ++ [']']
  | .obj .nil, _ => ['\x7b', '\x7d']
  | .obj (.cons k v kvs), ind =>
      '\x7b' :: '\n' :: dumpsMembers (JObj.cons k v kvs) (ind + 2) ++
      '\n' :: spacesL ind ++ ['\x7d']

/-- Array elements, one per line, comma-separated. -/
def dumpsElems : JArr → Nat → List Char
  | .nil, _ => []
  | .cons x .nil, ind => spacesL ind ++ dumpsVal x ind
  | .cons x (.cons y ys), ind =>
      spacesL ind ++ dumpsVal x ind ++ ',' :: '\n' :: dumpsElems (JArr.cons y ys) ind

/-- Object members, one per line, comma-separated, `": "` after each key. -/
def dumpsMembers : JObj → Nat → List Char
  | .nil, _ => []
  | .cons k v .nil, ind => spacesL ind ++ quoteJ k ++ ':' :: ' ' :: dumpsVal v ind
  | .cons k v (.cons k' v' kvs), ind =>
      spacesL ind ++ quoteJ k ++ ':' :: ' ' :: dumpsVal v ind ++
      ',' :: '\n' :: dumpsMembers (JObj.cons k' v' kvs) ind
end

/-- `json.dumps(output_data, indent=2)` — the exact text written to disk. -/
def dumps (j : Json) : String := String.mk (dumpsVal j 0)

/-! ### Parsing JSON text back (`json.loads`)

A recursive-descent reader for the JSON fragment the script emits (strings,
non-negative integers, arrays, objects). String escapes are decoded in two
passes exactly inverse to the serializer: unescaping yields UTF-16 code
units, which are then combined (surrogate pairs first) into characters. The
value parser carries explicit fuel; `parseDoc` supplies one unit per input
character plus one, which is enough for any document the serializer
produces. -/

/-- Is `c` JSON whitespace? -/
def isWsB (c : Char) : Bool := c = ' ' || c = '\n' || c = '\t' || c = '\r'

/-- Is `c` a decimal digit? -/
def isDigitB (c : Char) : Bool := 48 ≤ c.toNat && c.toNat ≤ 57

/-- Drop leading whitespace. -/
def skipWs : List Char → List Char
  | [] => []
  | c :: cs => if isWsB c then skipWs cs else c :: cs

/-- The numeric value of a hexadecimal digit. -/
def hexVal (c : Char) : Option Nat :=
  if 48 ≤ c.toNat ∧ c.toNat ≤ 57 then some (c.toNat - 48)
  else if 97 ≤ c.toNat ∧ c.toNat ≤ 102 then some (c.toNat - 87)
  else if 65 ≤ c.toNat ∧ c.toNat ≤ 70 then some (c.toNat - 55)
  else none

/-- Decode a JSON string body (the opening quote already consumed) into the
list of UTF-16 code units it denotes, returning the input after the closing
quote. -/
def unescape : List Char → Option (List Nat × List Char)
  | [] => none
  | c :: rest =>
    if c = '"' then some ([], rest)
    else if c = '\\' then
      match rest with
      | [] => none
      | e :: rest' =>
        if e = '"' then (fun p => (34 :: p.1, p.2)) <$> unescape rest'
        else if e = '\\' then (fun p => (92 :: p.1, p.2)) <$> unescape rest'
        else if e = '/' then (fun p => (47 :: p.1, p.2)) <$> unescape rest'
        else if e = 'b' then (fun p => (8 :: p.1, p.2)) <$> unescape rest'
        else if e = 'f' then (fun p => (12 :: p.1, p.2)) <$> unescape rest'
        else if e = 'n' then (fun p => (10 :: p.1, p.2)) <$> unescape rest'
        else if e = 'r' then (fun p => (13 :: p.1, p.2)) <$> unescape rest'
        else if e = 't' then (fun p => (9 :: p.1, p.2)) <$> unescape rest'
        else if e = 'u' then
          match rest' with
          | a :: b :: c2 :: d :: rest2 =>
            match hexVal a, hexVal b, hexVal c2, hexVal d with
            | some x, some y, some z, some w =>
                (fun p => ((((x * 16 + y) * 16 + z) * 16 + w) :: p.1, p.2)) <$>
                  unescape rest2
            | _, _, _, _ => none
          | _ => none
        else none
    else if c.toNat < 32 then none
    else (fun p => (c.toNat :: p.1, p.2)) <$> unescape rest

/-- Combine a list of UTF-16 code units into characters, pairing a high
surrogate with the following low surrogate; lone surrogates are rejected. -/
def combineUnits : List Nat → Option (List Char)
  | [] => some []
  | n :: rest =>
    if 55296 ≤ n ∧ n ≤ 56319 then
      match rest with
      | [] => none
      | m :: rest' =>
        if 56320 ≤ m ∧ m ≤ 57343 then
          (fun cs => Char.ofNat (65536 + (n - 55296) * 1024 + (m - 56320)) :: cs) <$>
            combineUnits rest'
        else none
    else if 56320 ≤ n ∧ n ≤ 57343 then none
    else if n.isValidChar then
      (fun cs => Char.ofNat n :: cs) <$> combineUnits rest
    else none

/-- Parse a JSON string literal body (after the opening quote). -/
def parseStr (l : List Char) : Option (String × List Char) := do
  let (us, r) ← unescape l
  let cs ← combineUnits us
  pure (String.mk cs, r)

/-- The numeric value of a decimal digit. -/
def digitVal (c : Char) : Option Nat :=
  if 48 ≤ c.toNat ∧ c.toNat ≤ 57 then some (c.toNat - 48) else none

/-- Accumulate decimal digits greedily. -/
def parseNatAux (acc : Nat) : List Char → Nat × List Char
  | [] => (acc, [])
  | c :: rest =>
    match digitVal c with
    | some d => parseNatAux (acc * 10 + d) rest
    | none => (acc, c :: rest)

/-- Parse a non-negative decimal integer (at least one digit). -/
def parseNum (l : List Char) : Option (Nat × List Char) :=
  match l with
  | [] => none
  | c :: rest =>
    match digitVal c with
    | some d => some (parseNatAux d rest)
    | none => none

mutual
/-- Parse one JSON value, skipping leading whitespace. -/
def parseVal : Nat → List Char → Option (Json × List Char)
  | 0, _ => none
  | fuel+1, l =>
    let l1 := skipWs l
    if l1.head? = some '"' then
      (parseStr l1.tail).map (fun p => (Json.str p.1, p.2))
    else if l1.head? = some '[' then
      if (skipWs l1.tail).head? = some ']' then
        some (Json.arr .nil, (skipWs l1.tail).tail)
      else
        (parseElems fuel l1.tail).map (fun p => (Json.arr p.1, p.2))
    else if l1.head? = some '\x7b' then
      if (skipWs l1.tail).head? = some '\x7d' then
        some (Json.obj .nil, (skipWs l1.tail).tail)
      else
        (parseMembers fuel l1.tail).map (fun p => (Json.obj p.1, p.2))
    else
      (parseNum l1).map (fun p => (Json.num p.1, p.2))

/-- Parse the elements of a non-empty JSON array, up to and including the
closing bracket. -/
def parseElems : Nat → List Char → Option (JArr × List Char)
  | 0, _ => none
  | fuel+1, l => do
    let (x, r) ← parseVal fuel l
    let r1 := skipWs r
    if r1.head? = some ',' then do
      let (xs, r2) ← parseElems fuel r1.tail
      pure (JArr.cons x xs, r2)
    else if r1.head? = some ']' then
      pure (JArr.cons x .nil, r1.tail)
    else none

/-- Parse the members of a non-empty JSON object, up to and including the
closing brace. -/
def parseMembers : Nat → List Char → Option (JObj × List Char)
  | 0, _ => none
  | fuel+1, l =>
    let l1 := skipWs l
    if l1.head? = some '"' then do
      let (k, r1) ← parseStr l1.tail
      let r2 := skipWs r1
      if r2.head? = some ':' then do
        let (v, r3) ← parseVal fuel r2.tail
        let r4 := skipWs r3
        if r4.head? = some ',' then do
          let (kvs, r5) ← parseMembers fuel r4.tail
          pure (JObj.cons k v kvs, r5)
        else if r4.head? = some '\x7d' then
          pure (JObj.cons k v .nil, r4.tail)
        else none
      else none
    else none
end

/-- Parse a complete JSON document: one value with only whitespace around
it, as `json.loads` does. -/
def parseDoc (s : String) : Option Json :=
  match parseVal (s.data.length + 1) s.data with
  | some (j, rest) => if (skipWs rest).isEmpty then some j else none
  | none => none

/-! ### The `main` function -/

/-- The lines `main` prints before writing the output file (lines 631-644):
banner, separator, identifiers, and the issue-count summary. -/
def summaryLines : List String :=
  ["CCEM Linear Issue Creation",
   String.mk (List.replicate 50 '='),
   "Project ID: " ++ PROJECT_ID,
   "Team ID: " ++ TEAM_ID,
   "",
   "Total issues to create: " ++ toString total_issues,
   "  - 1 Epic",
   "  - " ++ toString (total_issues - 1) ++ " Sub-issues across 5 phases",
   ""]

/-- The lines `main` prints after writing the output file (lines 675-683). -/
def postWriteLines : List String :=
  ["✅ Issue structure saved to: " ++ outputPath,
   "",
   "Next steps:",
   "1. Create Epic in Linear and note its ID",
   "2. Create sub-issues in each phase with parentId set to Epic ID",
   "3. Verify hierarchy in Linear project view",
   "",
   "Use Linear MCP server or visit:",
   "https://linear.app/pegues-innovations/project/idfwu-idea-framework-unified-4d649a6501f7"]

/-- Everything `main` prints to standard output, in order. -/
def mainStdout : List String := summaryLines ++ postWriteLines

/-- Observable outcome of one successful run: the printed lines and the list
of file writes performed, in order. -/
structure RunResult where
  stdout : List String
  writes : List (String × String)
deriving DecidableEq

/-- One run of the script against a file system `fs` mapping paths to
contents. Line 17 reads `linear-epic-ccem.md` before anything else runs; a
missing file raises `FileNotFoundError`, modelled as `none` (no output, no
writes). Otherwise `main` runs: it prints `mainStdout` and performs the single
`write_text` of the serialized `output_data` (line 674). -/
def runScript (fs : String → Option String) : Option RunResult :=
  match fs inputPath with
  | none => none
  | some epic_description =>
      some ⟨mainStdout, [(outputPath, dumps (output_data epic_description))]⟩

/-! ### Substring utilities (for claims about the printed summary) -/

/-- Is `pre` a prefix of `l`? -/
def charsPrefixOf : List Char → List Char → Bool
  | [], _ => true
  | _ :: _, [] => false
  | a :: asx, b :: bs => a == b && charsPrefixOf asx bs

/-- Does `needle` occur as a contiguous run inside the second list? -/
def charsSubOf (needle : List Char) : List Char → Bool
  | [] => needle.isEmpty
  | b :: bs => charsPrefixOf needle (b :: bs) || charsSubOf needle bs

/-- Does `needle` occur as a substring of `hay`? -/
def strContains (hay needle : String) : Bool :=
  charsSubOf needle.data hay.data

/-- Does some line of `lines` contain `needle`? -/
def linesMention (lines : List String) (needle : String) : Bool :=
  lines.any (fun l => strContains l needle)

/-- The printed output mentions each phase of the literal data by name —
the "breakdown by phase" the specification attributes to the summary. -/
def mentionsEveryPhase : Bool :=
  phases.all (fun ph => linesMention mainStdout ph.name)

/-! ### File-system post-state -/

/-- Apply recorded writes to a file system, in order; each write replaces
the contents at its path. -/
def applyWrites (fs : String → Option String) : List (String × String) → (String → Option String)
  | [] => fs
  | (p, c) :: rest => applyWrites (fun q => if q = p then some c else fs q) rest

/-- The file system after invoking the script: unchanged when the run dies
on the missing input file (the write on line 674 is never reached),
otherwise updated by the writes the run performed. -/
def postState (fs : String → Option String) : String → Option String :=
  match runScript fs with
  | none => fs
  | some r => applyWrites fs r.writes

/-! ### Fuel measures and document accessors -/

mutual
/-- Fuel sufficient for `parseVal` on the serialization of a value. -/
def jfuel : Json → Nat
  | .str _ => 1
  | .num _ => 1
  | .arr xs => afuel xs + 1
  | .obj kvs => ofuel kvs + 1

/-- Fuel sufficient for `parseElems` on serialized array elements. -/
def afuel : JArr → Nat
  | .nil => 0
  | .cons x xs => max (jfuel x) (afuel xs) + 1

/-- Fuel sufficient for `parseMembers` on serialized object members. -/
def ofuel : JObj → Nat
  | .nil => 0
  | .cons _ v kvs => max (jfuel v) (ofuel kvs) + 1
end

/-- Head characters that cannot extend a decimal number. -/
def headNotDigit : List Char → Bool
  | [] => true
  | c :: _ => !(isDigitB c)

/-- The UTF-16 code units of one character (a surrogate pair beyond the
basic multilingual plane). -/
def charUnits (c : Char) : List Nat :=
  if c.toNat < 65536 then [c.toNat]
  else [55296 + (c.toNat - 65536) / 1024, 56320 + (c.toNat - 65536) % 1024]

/-- The `phases` array of a parsed document. -/
def docPhases (j : Json) : List Json :=
  ((j.get "phases").bind Json.asArr).getD []

/-- The `issues` array of a parsed phase record. -/
def docIssues (p : Json) : List Json :=
  ((p.get "issues").bind Json.asArr).getD []

/-- The `name` field of a parsed phase record. -/
def docName (p : Json) : Option String :=
  (p.get "name").bind Json.asStr

/-- The `title` field of a parsed issue record. -/
def docTitle (i : Json) : Option String :=
  (i.get "title").bind Json.asStr

/-- The `labels` field of a parsed issue record. -/
def docLabels (i : Json) : List (Option String) :=
  (((i.get "labels").bind Json.asArr).getD []).map Json.asStr

end CCEM

namespace CCEM

/-! ## Claims -/

/-- C2: for every run of the emitter (any contents of `linear-epic-ccem.md`),
the `total_issues` field of the produced document equals 1 plus the sum, over
all phases in the literal data, of the number of issues in that phase. -/
theorem total_issues_is_one_plus_phase_sum (epic_description : String) :
    (output_data epic_description).get "total_issues"
      = some (.num (1 + (phases.map (fun ph => ph.issues.length)).sum)) := rfl

/-- C1 (counterexample): the emitted `total_issues` value is 21, not 17 as the
specification expects — the literal data holds 20 sub-issues, not 16. Shown
at the concrete input where the epic description is empty. -/
theorem total_issues_count_not_17 :
    total_issues = 21 ∧ (output_data "").get "total_issues" ≠ some (.num 17) := by
  refine ⟨rfl, ?_⟩
  have e : (output_data "").get "total_issues" = some (Json.num 21) := rfl
  rw [e]
  intro h
  injection h with h'
  injection h' with h''
  exact absurd h'' (by decide)

/-- C1 (amended): for the emitter run on the fixed literal issue data, the
`total_issues` value computed and written to the output document equals 21
(1 epic plus 20 sub-issues). -/
theorem total_issues_field_is_21 (epic_description : String) :
    (output_data epic_description).get "total_issues" = some (.num 21)
    ∧ total_issues = 1 + 20 := ⟨rfl, rfl⟩

/-- C10: the literal data tree contains exactly 5 phases, each with exactly 4
issues (20 in total), so the `total_issues` value computed and emitted is
exactly 21. -/
theorem literal_tree_counts :
    phases.length = 5
    ∧ phases.map (fun ph => ph.issues.length) = [4, 4, 4, 4, 4]
    ∧ total_issues = 21
    ∧ ∀ epic_description : String,
        (output_data epic_description).get "total_issues" = some (.num 21) :=
  ⟨rfl, rfl, rfl, fun _ => rfl⟩

/-- C4: the emitter is deterministic — two runs whose file systems agree on
the contents of `linear-epic-ccem.md` produce identical results, in
particular byte-identical JSON output; no timestamp or other state enters the
run (the model takes no other input because the script reads none). -/
theorem emitter_deterministic (fs₁ fs₂ : String → Option String)
    (h : fs₁ inputPath = fs₂ inputPath) : runScript fs₁ = runScript fs₂ := by
  unfold runScript
  rw [h]

/-- Witness for C4 at concrete file systems with the same input file. -/
theorem emitter_deterministic_witness :
    runScript (fun _ => some "x")
      = runScript (fun p => if p = inputPath then some "x" else none) :=
  emitter_deterministic _ _ (by decide)

/-- C5: if `linear-epic-ccem.md` is absent, the run fails fatally (no result)
and nothing is written — the file system is unchanged. -/
theorem missing_input_fatal_no_write (fs : String → Option String)
    (h : fs inputPath = none) :
    runScript fs = none ∧ postState fs = fs := by
  have h1 : runScript fs = none := by
    unfold runScript
    rw [h]
  refine ⟨h1, ?_⟩
  unfold postState
  rw [h1]

/-- Witness for C5 on the empty file system. -/
theorem missing_input_fatal_no_write_witness :
    runScript (fun _ => none) = none
    ∧ postState (fun _ => none) = (fun _ : String => none) :=
  missing_input_fatal_no_write (fun _ => none) rfl

/-- C6: every successful run writes exactly one file, at the fixed relative
path `linear-issues-created.json`, and the document has exactly the top-level
keys `project_id`, `team_id`, `total_issues`, `epic`, `phases`,
`instructions`, in that order. -/
theorem output_document_shape (fs : String → Option String)
    (epic_description : String) (h : fs inputPath = some epic_description) :
    ∃ r : RunResult, runScript fs = some r
      ∧ r.writes = [(outputPath, dumps (output_data epic_description))]
      ∧ outputPath = "linear-issues-created.json"
      ∧ (output_data epic_description).topKeys
          = ["project_id", "team_id", "total_issues", "epic", "phases", "instructions"] := by
  refine ⟨⟨mainStdout, [(outputPath, dumps (output_data epic_description))]⟩, ?_, rfl, rfl, rfl⟩
  unfold runScript
  rw [h]

/-- Witness for C6 at a concrete file system. -/
theorem output_document_shape_witness :
    ∃ r : RunResult, runScript (fun _ => some "d") = some r
      ∧ r.writes = [(outputPath, dumps (output_data "d"))]
      ∧ outputPath = "linear-issues-created.json"
      ∧ (output_data "d").topKeys
          = ["project_id", "team_id", "total_issues", "epic", "phases", "instructions"] :=
  output_document_shape (fun _ => some "d") "d" rfl

/-- C8: whatever `linear-epic-ccem.md` contains, the `description` field of
the epic record in the output document is exactly that text, unmodified. -/
theorem epic_description_embedded_verbatim (fs : String → Option String)
    (text : String) (h : fs inputPath = some text) :
    ∃ r : RunResult, runScript fs = some r
      ∧ r.writes = [(outputPath, dumps (output_data text))]
      ∧ ((output_data text).get "epic").bind (fun e => e.get "description")
          = some (.str text)
      ∧ (ISSUES text).epic.description = text := by
  refine ⟨⟨mainStdout, [(outputPath, dumps (output_data text))]⟩, ?_, rfl, rfl, rfl⟩
  unfold runScript
  rw [h]

/-- Witness for C8 at a concrete file system. -/
theorem epic_description_embedded_verbatim_witness :
    ∃ r : RunResult, runScript (fun _ => some "the epic text") = some r
      ∧ r.writes = [(outputPath, dumps (output_data "the epic text"))]
      ∧ ((output_data "the epic text").get "epic").bind (fun e => e.get "description")
          = some (.str "the epic text")
      ∧ (ISSUES "the epic text").epic.description = "the epic text" :=
  epic_description_embedded_verbatim (fun _ => some "the epic text") "the epic text" rfl

/-- C9 (frame property): a run writes only `linear-issues-created.json`,
fully overwriting it in a single write whose content depends only on the
input file — two file systems with the same input contents (and anything at
all in the output file) yield identical runs — and every other path is
untouched. -/
theorem frame_only_output_file (fs₁ fs₂ : String → Option String)
    (epic_description : String) (q : String)
    (h₁ : fs₁ inputPath = some epic_description)
    (h₂ : fs₂ inputPath = some epic_description)
    (hq : q ≠ outputPath) :
    runScript fs₁ = runScript fs₂
    ∧ postState fs₁ outputPath = some (dumps (output_data epic_description))
    ∧ postState fs₁ q = fs₁ q := by
  have e₁ : runScript fs₁
      = some ⟨mainStdout, [(outputPath, dumps (output_data epic_description))]⟩ := by
    unfold runScript
    rw [h₁]
  have e₂ : runScript fs₂
      = some ⟨mainStdout, [(outputPath, dumps (output_data epic_description))]⟩ := by
    unfold runScript
    rw [h₂]
  refine ⟨e₁.trans e₂.symm, ?_, ?_⟩ <;>
    simp [postState, e₁, applyWrites, hq]

/-- Witness for C9: the second file system holds stale junk at the output
path; the run is unaffected, and an unrelated path keeps its contents. -/
theorem frame_only_output_file_witness :
    runScript (fun _ => some "a")
        = runScript (fun p => if p = inputPath then some "a" else some "junk")
    ∧ postState (fun _ => some "a") outputPath = some (dumps (output_data "a"))
    ∧ postState (fun _ => some "a") "other.txt" = (fun _ : String => some "a") "other.txt" :=
  frame_only_output_file (fun _ => some "a")
    (fun p => if p = inputPath then some "a" else some "junk") "a" "other.txt"
    rfl (by decide) (by decide)

/-- C7 (counterexample): the printed summary contains the project identifier,
the team identifier and the total count, but no breakdown by phase — no phase
of the literal data is mentioned anywhere in the printed output (indeed the
word "Phase" never appears in any printed line). -/
theorem summary_lacks_phase_breakdown :
    linesMention summaryLines PROJECT_ID = true
    ∧ linesMention summaryLines TEAM_ID = true
    ∧ linesMention summaryLines (toString total_issues) = true
    ∧ mentionsEveryPhase = false
    ∧ linesMention mainStdout "Phase" = false := by
  refine ⟨by decide, by decide, by decide, by decide, by decide⟩

/-- C7 (amended): the printed summary contains the project identifier, the
team identifier, and the total counts — the overall total, the epic line and
the aggregate sub-issue count across the 5 phases — but no per-phase
breakdown. -/
theorem summary_contents_amended :
    linesMention summaryLines PROJECT_ID = true
    ∧ linesMention summaryLines TEAM_ID = true
    ∧ linesMention summaryLines ("Total issues to create: " ++ toString total_issues) = true
    ∧ linesMention summaryLines "  - 1 Epic" = true
    ∧ linesMention summaryLines
        ("  - " ++ toString (total_issues - 1) ++ " Sub-issues across 5 phases") = true := by
  refine ⟨by decide, by decide, by decide, by decide, by decide⟩

end CCEM

namespace CCEM

/-! ### Parser correctness: basics -/

/-- `Char.ofNat` at a valid code point keeps the code point. -/
theorem toNat_ofNat_valid {n : Nat} (h : n.isValidChar) :
    (Char.ofNat n).toNat = n := by
  rw [Char.ofNat, dif_pos h]
  simp [Char.ofNatAux, Char.toNat, UInt32.toNat]

/-- Every character's code point is a Unicode scalar value. -/
theorem char_toNat_valid (c : Char) :
    c.toNat < 55296 ∨ (57343 < c.toNat ∧ c.toNat < 1114112) := c.valid

theorem hexVal_hexDigitChar : ∀ k, k < 16 → hexVal (hexDigitChar k) = some k := by decide

theorem isDigitB_decDigitChar : ∀ k, k < 10 → isDigitB (decDigitChar k) = true := by decide

theorem toNat_decDigitChar : ∀ k, k < 10 → (decDigitChar k).toNat = 48 + k := by decide

end CCEM

namespace CCEM

/-- The decimal rendering is never empty. -/
theorem natDecimal_ne_nil (n : Nat) : natDecimal n ≠ [] := by
  rw [natDecimal]
  by_cases h : n < 10 <;> simp [h]

/-- Every character of the decimal rendering is a digit. -/
theorem natDecimal_all_digits (n : Nat) :
    ∀ c ∈ natDecimal n, isDigitB c = true := by
  induction n using Nat.strong_induction_on with
  | _ n ih =>
    rw [natDecimal]
    by_cases h : n < 10
    · simp only [if_pos h, List.mem_singleton]
      rintro c rfl
      exact isDigitB_decDigitChar n h
    · simp only [if_neg h, List.mem_append, List.mem_singleton]
      rintro c (hc | rfl)
      · exact ih (n / 10) (Nat.div_lt_self (by omega) (by omega)) c hc
      · exact isDigitB_decDigitChar (n % 10) (Nat.mod_lt _ (by omega))

/-- A digit character's numeric value. -/
theorem digitVal_of_isDigitB {c : Char} (h : isDigitB c = true) :
    digitVal c = some (c.toNat - 48) := by
  simp only [isDigitB, Bool.and_eq_true, decide_eq_true_eq] at h
  simp only [digitVal, if_pos (And.intro h.1 h.2)]

/-- A non-digit character has no numeric value. -/
theorem digitVal_of_not_digit {c : Char} (h : isDigitB c = false) :
    digitVal c = none := by
  simp only [isDigitB, Bool.and_eq_false_iff, decide_eq_false_iff_not] at h
  simp only [digitVal, ite_eq_right_iff]
  intro hc
  rcases h with h | h <;> omega

/-- Greedy digit accumulation stops at a non-digit head. -/
theorem parseNatAux_stop (acc : Nat) (l : List Char) (h : headNotDigit l = true) :
    parseNatAux acc l = (acc, l) := by
  cases l with
  | nil => rfl
  | cons c rest =>
    simp only [headNotDigit, Bool.not_eq_true'] at h
    simp only [parseNatAux, digitVal_of_not_digit h]

/-- Greedy digit accumulation over a block of digits folds their values in. -/
theorem parseNatAux_digits (ds : List Char) (hds : ∀ c ∈ ds, isDigitB c = true) :
    ∀ (acc : Nat) (l : List Char),
      parseNatAux acc (ds ++ l)
        = parseNatAux (ds.foldl (fun a c => a * 10 + (c.toNat - 48)) acc) l := by
  induction ds with
  | nil => intro acc l; rfl
  | cons d ds ih =>
    intro acc l
    have hd : isDigitB d = true := hds d (List.mem_cons_self d ds)
    simp only [List.cons_append, parseNatAux, digitVal_of_isDigitB hd, List.foldl_cons]
    exact ih (fun c hc => hds c (List.mem_cons_of_mem d hc)) _ l

/-- Folding the digits of `natDecimal n` recovers `n`. -/
theorem natDecimal_foldl (n : Nat) :
    ∀ acc : Nat,
      (natDecimal n).foldl (fun a c => a * 10 + (c.toNat - 48)) acc
        = acc * 10 ^ (natDecimal n).length + n := by
  induction n using Nat.strong_induction_on with
  | _ n ih =>
    intro acc
    rw [natDecimal]
    by_cases h : n < 10
    · simp only [if_pos h, List.foldl_cons, List.foldl_nil, List.length_singleton,
        pow_one, toNat_decDigitChar n h]
      omega
    · have hlt : n / 10 < n := Nat.div_lt_self (by omega) (by omega)
      simp only [if_neg h, List.foldl_append, List.foldl_cons, List.foldl_nil,
        List.length_append, List.length_singleton, ih (n / 10) hlt acc,
        toNat_decDigitChar (n % 10) (Nat.mod_lt _ (by omega))]
      have hpow : 10 ^ ((natDecimal (n / 10)).length + 1)
          = 10 ^ (natDecimal (n / 10)).length * 10 := pow_succ 10 _
      rw [hpow]
      have hsub : 48 + n % 10 - 48 = n % 10 := by omega
      rw [hsub]
      have hmod : 10 * (n / 10) + n % 10 = n := by omega
      calc (acc * 10 ^ (natDecimal (n / 10)).length + n / 10) * 10 + n % 10
          = acc * (10 ^ (natDecimal (n / 10)).length * 10)
              + (10 * (n / 10) + n % 10) := by ring
        _ = acc * (10 ^ (natDecimal (n / 10)).length * 10) + n := by rw [hmod]

/-- Parsing the decimal rendering of `n`, followed by a non-digit, yields
`n` and leaves the continuation untouched. -/
theorem parseNum_natDecimal (n : Nat) (l : List Char) (h : headNotDigit l = true) :
    parseNum (natDecimal n ++ l) = some (n, l) := by
  cases hnd : natDecimal n with
  | nil => exact absurd hnd (natDecimal_ne_nil n)
  | cons d ds =>
    have hall : ∀ c ∈ natDecimal n, isDigitB c = true := natDecimal_all_digits n
    rw [hnd] at hall
    have hd : isDigitB d = true := hall d (List.mem_cons_self d ds)
    simp only [List.cons_append, parseNum, digitVal_of_isDigitB hd]
    rw [parseNatAux_digits ds (fun c hc => hall c (List.mem_cons_of_mem d hc)) _ l,
      parseNatAux_stop _ _ h]
    have hfld : (natDecimal n).foldl (fun a c => a * 10 + (c.toNat - 48)) 0 = n := by
      rw [natDecimal_foldl n 0]
      omega
    rw [hnd] at hfld
    simp only [List.foldl_cons] at hfld
    have : (0 : Nat) * 10 + (d.toNat - 48) = d.toNat - 48 := by omega
    rw [this] at hfld
    rw [hfld]

end CCEM

namespace CCEM

/-- Decoding a plain (unescaped) character. -/
theorem unescape_plain (c : Char) (l : List Char)
    (h1 : c ≠ '"') (h2 : c ≠ '\\') (h3 : 32 ≤ c.toNat) :
    unescape (c :: l) = (fun p => (c.toNat :: p.1, p.2)) <$> unescape l := by
  rw [unescape.eq_def]
  simp only [if_neg h1, if_neg h2, if_neg (show ¬c.toNat < 32 by omega)]

/-- Decoding a `\uXXXX` escape produced by `hex4`. -/
theorem unescape_u (n : Nat) (hn : n < 65536) (l : List Char) :
    unescape ('\\' :: 'u' :: (hex4 n ++ l))
      = (fun p => (n :: p.1, p.2)) <$> unescape l := by
  have h1 := hexVal_hexDigitChar (n / 4096 % 16) (Nat.mod_lt _ (by omega))
  have h2 := hexVal_hexDigitChar (n / 256 % 16) (Nat.mod_lt _ (by omega))
  have h3 := hexVal_hexDigitChar (n / 16 % 16) (Nat.mod_lt _ (by omega))
  have h4 := hexVal_hexDigitChar (n % 16) (Nat.mod_lt _ (by omega))
  rw [unescape.eq_def]
  simp only [hex4, List.cons_append, List.nil_append, h1, h2, h3, h4]
  have harith : ((n / 4096 % 16 * 16 + n / 256 % 16) * 16 + n / 16 % 16) * 16 + n % 16 = n := by
    omega
  simp [harith]

end CCEM

namespace CCEM

/-- Decoding one escaped character recovers exactly its UTF-16 code units. -/
theorem unescape_escapeChar (c : Char) (l : List Char) :
    unescape (escapeChar c ++ l)
      = (fun p => (charUnits c ++ p.1, p.2)) <$> unescape l := by
  by_cases h1 : c = '"'
  · subst h1
    rw [show escapeChar '"' ++ l = '\\' :: '"' :: l from rfl, unescape.eq_def]
    simp [charUnits]
  by_cases h2 : c = '\\'
  · subst h2
    rw [show escapeChar '\\' ++ l = '\\' :: '\\' :: l from rfl, unescape.eq_def]
    simp [charUnits]
  by_cases h3 : c = '\n'
  · subst h3
    rw [show escapeChar '\n' ++ l = '\\' :: 'n' :: l from rfl, unescape.eq_def]
    simp [charUnits]
  by_cases h4 : c = '\t'
  · subst h4
    rw [show escapeChar '\t' ++ l = '\\' :: 't' :: l from rfl, unescape.eq_def]
    simp [charUnits]
  by_cases h5 : c = '\r'
  · subst h5
    rw [show escapeChar '\r' ++ l = '\\' :: 'r' :: l from rfl, unescape.eq_def]
    simp [charUnits]
  by_cases h6 : c.toNat = 8
  · have hc : c = '\x08' := by
      rw [← Char.ofNat_toNat c, h6]
    subst hc
    rw [show escapeChar '\x08' ++ l = '\\' :: 'b' :: l from rfl, unescape.eq_def]
    simp [charUnits]
  by_cases h7 : c.toNat = 12
  · have hc : c = '\x0c' := by
      rw [← Char.ofNat_toNat c, h7]
    subst hc
    rw [show escapeChar '\x0c' ++ l = '\\' :: 'f' :: l from rfl, unescape.eq_def]
    simp [charUnits]
  by_cases h8 : 32 ≤ c.toNat ∧ c.toNat ≤ 126
  · have he : escapeChar c = [c] := by
      simp only [escapeChar, if_neg h1, if_neg h2, if_neg h3, if_neg h4, if_neg h5,
        if_neg h6, if_neg h7, if_pos h8]
    have hcu : charUnits c = [c.toNat] := by
      simp only [charUnits, if_pos (show c.toNat < 65536 by omega)]
    rw [he, hcu]
    simp only [List.singleton_append]
    exact unescape_plain c l h1 h2 h8.1
  by_cases h9 : c.toNat < 65536
  · have he : escapeChar c = '\\' :: 'u' :: hex4 c.toNat := by
      simp only [escapeChar, if_neg h1, if_neg h2, if_neg h3, if_neg h4, if_neg h5,
        if_neg h6, if_neg h7, if_neg h8, if_pos h9]
    have hcu : charUnits c = [c.toNat] := by
      simp only [charUnits, if_pos h9]
    rw [he, hcu]
    simp only [List.cons_append, List.singleton_append]
    exact unescape_u c.toNat h9 l
  · have hv := char_toNat_valid c
    have hhi : 55296 + (c.toNat - 65536) / 1024 < 65536 := by omega
    have hlo : 56320 + (c.toNat - 65536) % 1024 < 65536 := by
      have := Nat.mod_lt (c.toNat - 65536) (show 0 < 1024 by omega)
      omega
    have he : escapeChar c
        = '\\' :: 'u' :: hex4 (55296 + (c.toNat - 65536) / 1024) ++
          ('\\' :: 'u' :: hex4 (56320 + (c.toNat - 65536) % 1024)) := by
      simp only [escapeChar, if_neg h1, if_neg h2, if_neg h3, if_neg h4, if_neg h5,
        if_neg h6, if_neg h7, if_neg h8, if_neg h9]
    have hcu : charUnits c
        = [55296 + (c.toNat - 65536) / 1024, 56320 + (c.toNat - 65536) % 1024] := by
      simp only [charUnits, if_neg (show ¬c.toNat < 65536 by omega)]
    rw [he, hcu]
    have hshape : (('\\' :: 'u' :: hex4 (55296 + (c.toNat - 65536) / 1024)) ++
        ('\\' :: 'u' :: hex4 (56320 + (c.toNat - 65536) % 1024))) ++ l
        = '\\' :: 'u' :: (hex4 (55296 + (c.toNat - 65536) / 1024) ++
          ('\\' :: 'u' :: (hex4 (56320 + (c.toNat - 65536) % 1024) ++ l))) := by
      simp [List.append_assoc]
    rw [hshape, unescape_u _ hhi, unescape_u _ hlo]
    cases unescape l <;> rfl

/-- Recombining the code units of one character prepends that character. -/
theorem combineUnits_charUnits (c : Char) (us : List Nat) :
    combineUnits (charUnits c ++ us) = (fun cs => c :: cs) <$> combineUnits us := by
  have hv := char_toNat_valid c
  by_cases h : c.toNat < 65536
  · have hcu : charUnits c = [c.toNat] := by simp only [charUnits, if_pos h]
    rw [hcu]
    simp only [List.singleton_append]
    rw [combineUnits.eq_def]
    have hns1 : ¬(55296 ≤ c.toNat ∧ c.toNat ≤ 56319) := by omega
    have hns2 : ¬(56320 ≤ c.toNat ∧ c.toNat ≤ 57343) := by omega
    have hval : c.toNat.isValidChar := by
      rcases hv with hv | hv
      · exact Or.inl hv
      · exact Or.inr ⟨by omega, by omega⟩
    simp only [if_neg hns1, if_neg hns2, if_pos hval, Char.ofNat_toNat]
  · have hcu : charUnits c
        = [55296 + (c.toNat - 65536) / 1024, 56320 + (c.toNat - 65536) % 1024] := by
      simp only [charUnits, if_neg h]
    rw [hcu]
    simp only [List.cons_append, List.singleton_append]
    rw [combineUnits.eq_def]
    have hq : (c.toNat - 65536) / 1024 ≤ 1023 := by omega
    have hr := Nat.mod_lt (c.toNat - 65536) (show 0 < 1024 by omega)
    have hin1 : 55296 ≤ 55296 + (c.toNat - 65536) / 1024
        ∧ 55296 + (c.toNat - 65536) / 1024 ≤ 56319 := by omega
    have hin2 : 56320 ≤ 56320 + (c.toNat - 65536) % 1024
        ∧ 56320 + (c.toNat - 65536) % 1024 ≤ 57343 := by omega
    simp only [if_pos hin1, if_pos hin2]
    have harith : 65536 + (55296 + (c.toNat - 65536) / 1024 - 55296) * 1024 +
        (56320 + (c.toNat - 65536) % 1024 - 56320) = c.toNat := by omega
    rw [harith, Char.ofNat_toNat]
    simp

end CCEM

namespace CCEM

/-- Decoding an escaped string body up to its closing quote. -/
theorem unescape_escChars (cs : List Char) (l : List Char) :
    unescape (cs.flatMap escapeChar ++ '"' :: l)
      = some (cs.flatMap charUnits, l) := by
  induction cs with
  | nil =>
    rw [List.flatMap_nil, List.nil_append, unescape.eq_def]
    simp
  | cons c cs ih =>
    rw [List.flatMap_cons, List.append_assoc, unescape_escapeChar, ih,
      List.flatMap_cons]
    rfl

/-- Recombining the code units of a character list recovers it. -/
theorem combineUnits_flat (cs : List Char) :
    combineUnits (cs.flatMap charUnits) = some cs := by
  induction cs with
  | nil => rfl
  | cons c cs ih =>
    rw [List.flatMap_cons, combineUnits_charUnits, ih]
    rfl

/-- Parsing a serialized string literal (after the opening quote) recovers
the string and the continuation. -/
theorem parseStr_quoteJ (s : String) (l : List Char) :
    parseStr (escChars s ++ '"' :: l) = some (s, l) := by
  simp only [parseStr, escChars, unescape_escChars, combineUnits_flat,
    Option.bind_eq_bind, Option.some_bind]
  rfl

/-- `skipWs` ignores a whitespace prefix. -/
theorem skipWs_append (ws : List Char) (l : List Char) (h : ws.all isWsB = true) :
    skipWs (ws ++ l) = skipWs l := by
  induction ws with
  | nil => rfl
  | cons w ws ih =>
    simp only [List.all_cons, Bool.and_eq_true] at h
    rw [List.cons_append, skipWs, if_pos h.1]
    exact ih h.2

/-- `skipWs` keeps a list whose head is not whitespace. -/
theorem skipWs_cons (c : Char) (l : List Char) (h : isWsB c = false) :
    skipWs (c :: l) = c :: l := by
  rw [skipWs, if_neg]
  simp [h]

/-- Spaces are whitespace. -/
theorem spacesL_all (n : Nat) : (spacesL n).all isWsB = true := by
  simp [spacesL, List.all_eq_true]
  exact Or.inr rfl

/-- Whitespace characters are not digits. -/
theorem ws_not_digit {c : Char} (h : isWsB c = true) : isDigitB c = false := by
  simp only [isWsB, Bool.or_eq_true, decide_eq_true_eq] at h
  rcases h with ((h | h) | h) | h <;> subst h <;> rfl

end CCEM

namespace CCEM

/-- Serialized values start with a quote, a bracket, a brace or a digit. -/
theorem dumpsVal_head (j : Json) (ind : Nat) :
    ∃ c cs, dumpsVal j ind = c :: cs
      ∧ (c = '"' ∨ c = '[' ∨ c = '\x7b' ∨ isDigitB c = true) := by
  cases j with
  | str s => exact ⟨'"', escChars s ++ ['"'], rfl, Or.inl rfl⟩
  | num n =>
    cases hnd : natDecimal n with
    | nil => exact absurd hnd (natDecimal_ne_nil n)
    | cons d ds =>
      refine ⟨d, ds, ?_, Or.inr (Or.inr (Or.inr ?_))⟩
      · show natDecimal n = d :: ds
        exact hnd
      · exact natDecimal_all_digits n d (hnd ▸ List.mem_cons_self d ds)
  | arr xs =>
    cases xs with
    | nil => exact ⟨'[', [']'], rfl, Or.inr (Or.inl rfl)⟩
    | cons x xs =>
      exact ⟨'[', _, rfl, Or.inr (Or.inl rfl)⟩
  | obj kvs =>
    cases kvs with
    | nil => exact ⟨'\x7b', ['\x7d'], rfl, Or.inr (Or.inr (Or.inl rfl))⟩
    | cons k v kvs =>
      exact ⟨'\x7b', _, rfl, Or.inr (Or.inr (Or.inl rfl))⟩

/-- A digit character is not whitespace. -/
theorem digit_not_ws {c : Char} (h : isDigitB c = true) : isWsB c = false := by
  cases hw : isWsB c with
  | false => rfl
  | true => rw [ws_not_digit hw] at h; exact absurd h (by decide)

/-- Facts about possible serialized-value head characters. -/
theorem head_flags {c : Char}
    (h : c = '"' ∨ c = '[' ∨ c = '\x7b' ∨ isDigitB c = true) :
    isWsB c = false ∧ c ≠ ']' ∧ c ≠ '\x7d' := by
  rcases h with rfl | rfl | rfl | h
  · exact ⟨rfl, by decide, by decide⟩
  · exact ⟨rfl, by decide, by decide⟩
  · exact ⟨rfl, by decide, by decide⟩
  · refine ⟨digit_not_ws h, ?_, ?_⟩
    · rintro rfl
      exact absurd h (by decide)
    · rintro rfl
      exact absurd h (by decide)

/-- Every value needs at least one unit of fuel. -/
theorem jfuel_pos (j : Json) : 1 ≤ jfuel j := by
  cases j <;> simp [jfuel]

/-- A whitespace run followed by a non-digit starts with no digit. -/
theorem headNotDigit_wsc (wsc : List Char) (b : Char) (rest : List Char)
    (hws : wsc.all isWsB = true) (hb : isDigitB b = false) :
    headNotDigit (wsc ++ b :: rest) = true := by
  cases wsc with
  | nil => simp [headNotDigit, hb]
  | cons w ws =>
    simp only [List.all_cons, Bool.and_eq_true] at hws
    simp [headNotDigit, ws_not_digit hws.1]

end CCEM

namespace CCEM

mutual
/-- The serialization is at least as long as the fuel a value needs. -/
theorem jfuel_le_length (j : Json) (ind : Nat) :
    jfuel j ≤ (dumpsVal j ind).length := by
  cases j with
  | str s =>
    simp [jfuel, dumpsVal, quoteJ]
  | num n =>
    have := List.length_pos.mpr (natDecimal_ne_nil n)
    simpa [jfuel, dumpsVal] using this
  | arr xs =>
    cases xs with
    | nil => simp [jfuel, afuel, dumpsVal]
    | cons x xs =>
      have h := afuel_le_length (JArr.cons x xs) (ind + 2)
      simp only [jfuel, dumpsVal, List.length_cons, List.length_append,
        spacesL, List.length_replicate] at h ⊢
      omega
  | obj kvs =>
    cases kvs with
    | nil => simp [jfuel, ofuel, dumpsVal]
    | cons k v kvs =>
      have h := ofuel_le_length (JObj.cons k v kvs) (ind + 2)
      simp only [jfuel, dumpsVal, List.length_cons, List.length_append,
        spacesL, List.length_replicate] at h ⊢
      omega

/-- The serialized elements are nearly as long as the fuel they need. -/
theorem afuel_le_length (xs : JArr) (ind : Nat) :
    afuel xs ≤ (dumpsElems xs ind).length + 1 := by
  cases xs with
  | nil => exact Nat.zero_le _
  | cons x xs =>
    cases xs with
    | nil =>
      have h := jfuel_le_length x ind
      simp only [afuel, dumpsElems, List.length_append, spacesL,
        List.length_replicate]
      omega
    | cons y ys =>
      have h1 := jfuel_le_length x ind
      have h2 := afuel_le_length (JArr.cons y ys) ind
      simp only [afuel, dumpsElems, List.length_append, List.length_cons,
        spacesL, List.length_replicate] at h2 ⊢
      omega

/-- The serialized members are nearly as long as the fuel they need. -/
theorem ofuel_le_length (kvs : JObj) (ind : Nat) :
    ofuel kvs ≤ (dumpsMembers kvs ind).length + 1 := by
  cases kvs with
  | nil => exact Nat.zero_le _
  | cons k v kvs =>
    cases kvs with
    | nil =>
      have h := jfuel_le_length v ind
      simp only [ofuel, dumpsMembers, List.length_append, List.length_cons,
        spacesL, List.length_replicate]
      omega
    | cons k2 v2 kvs2 =>
      have h1 := jfuel_le_length v ind
      have h2 := ofuel_le_length (JObj.cons k2 v2 kvs2) ind
      simp only [ofuel, dumpsMembers, List.length_append, List.length_cons,
        spacesL, List.length_replicate] at h2 ⊢
      omega
end

end CCEM

namespace CCEM

/-- Skipping one whitespace character. -/
theorem skipWs_ws_cons (w : Char) (l : List Char) (h : isWsB w = true) :
    skipWs (w :: l) = skipWs l := by
  rw [skipWs, if_pos h]

mutual
/-- Parsing the serialization of a value (with any whitespace before it and
any non-digit-led continuation after it) recovers exactly that value. -/
theorem parseVal_dumps (j : Json) (ind fuel : Nat) (ws rest : List Char) :
    ws.all isWsB = true → jfuel j ≤ fuel → headNotDigit rest = true →
    parseVal fuel (ws ++ dumpsVal j ind ++ rest) = some (j, rest) := by
  intro hws hf hr
  cases fuel with
  | zero => exact absurd hf (by have := jfuel_pos j; omega)
  | succ g => cases j with
    | str s =>
      have hskip : skipWs (ws ++ dumpsVal (Json.str s) ind ++ rest)
          = '"' :: (escChars s ++ '"' :: rest) := by
        rw [List.append_assoc, skipWs_append _ _ hws]
        have hsh : dumpsVal (Json.str s) ind ++ rest
            = '"' :: (escChars s ++ '"' :: rest) := by
          show quoteJ s ++ rest = _
          simp [quoteJ, List.append_assoc]
        rw [hsh, skipWs_cons '"' _ rfl]
      rw [parseVal.eq_def]
      simp only [hskip, List.head?_cons, List.tail_cons]
      simp [parseStr_quoteJ]
    | num n =>
      obtain ⟨d, ds, hnd, hdig⟩ :
          ∃ d ds, natDecimal n = d :: ds ∧ isDigitB d = true := by
        cases hnd : natDecimal n with
        | nil => exact absurd hnd (natDecimal_ne_nil n)
        | cons d ds =>
          exact ⟨d, ds, rfl,
            natDecimal_all_digits n d (hnd ▸ List.mem_cons_self d ds)⟩
      have hskip : skipWs (ws ++ dumpsVal (Json.num n) ind ++ rest)
          = d :: (ds ++ rest) := by
        rw [List.append_assoc, skipWs_append _ _ hws]
        show skipWs (natDecimal n ++ rest) = _
        rw [hnd, List.cons_append, skipWs_cons d _ (digit_not_ws hdig)]
      have hne1 : ¬((d :: (ds ++ rest)).head? = some '"') := by
        simp only [List.head?_cons, Option.some.injEq]
        rintro rfl
        exact absurd hdig (by decide)
      have hne2 : ¬((d :: (ds ++ rest)).head? = some '[') := by
        simp only [List.head?_cons, Option.some.injEq]
        rintro rfl
        exact absurd hdig (by decide)
      have hne3 : ¬((d :: (ds ++ rest)).head? = some '\x7b') := by
        simp only [List.head?_cons, Option.some.injEq]
        rintro rfl
        exact absurd hdig (by decide)
      have hpn : parseNum (d :: (ds ++ rest)) = some (n, rest) := by
        have := parseNum_natDecimal n rest hr
        rw [hnd, List.cons_append] at this
        exact this
      rw [parseVal.eq_def]
      simp only [hskip, if_neg hne1, if_neg hne2, if_neg hne3, hpn]
      rfl
    | arr xs => cases xs with
      | nil =>
        have hskip : skipWs (ws ++ dumpsVal (Json.arr JArr.nil) ind ++ rest)
            = '[' :: ']' :: rest := by
          rw [List.append_assoc, skipWs_append _ _ hws]
          show skipWs ('[' :: ']' :: rest) = _
          rw [skipWs_cons '[' _ rfl]
        rw [parseVal.eq_def]
        simp only [hskip, List.head?_cons, List.tail_cons]
        rw [skipWs_cons ']' _ rfl]
        simp
      | cons x xs =>
        obtain ⟨c, cs, hxd, hdisj⟩ := dumpsVal_head x (ind + 2)
        obtain ⟨hcws, hcrb, hcrc⟩ := head_flags hdisj
        obtain ⟨t, ht⟩ : ∃ t, dumpsElems (JArr.cons x xs) (ind + 2)
            = spacesL (ind + 2) ++ (dumpsVal x (ind + 2) ++ t) := by
          cases xs with
          | nil => exact ⟨[], by simp [dumpsElems]⟩
          | cons y ys =>
            exact ⟨',' :: '\n' :: dumpsElems (JArr.cons y ys) (ind + 2),
              by simp [dumpsElems, List.append_assoc]⟩
        have hsh : dumpsVal (Json.arr (JArr.cons x xs)) ind ++ rest
            = '[' :: ('\n' :: (dumpsElems (JArr.cons x xs) (ind + 2) ++
                (('\n' :: spacesL ind) ++ (']' :: rest)))) := by
          simp [dumpsVal, List.append_assoc]
        have hskip : skipWs (ws ++ dumpsVal (Json.arr (JArr.cons x xs)) ind ++ rest)
            = '[' :: ('\n' :: (dumpsElems (JArr.cons x xs) (ind + 2) ++
                (('\n' :: spacesL ind) ++ (']' :: rest)))) := by
          rw [List.append_assoc, skipWs_append _ _ hws, hsh, skipWs_cons '[' _ rfl]
        have hskip2 : skipWs ('\n' :: (dumpsElems (JArr.cons x xs) (ind + 2) ++
              (('\n' :: spacesL ind) ++ (']' :: rest))))
            = c :: (cs ++ (t ++ (('\n' :: spacesL ind) ++ (']' :: rest)))) := by
          rw [skipWs_ws_cons '\n' _ rfl, ht]
          rw [List.append_assoc, skipWs_append _ _ (spacesL_all (ind + 2))]
          rw [List.append_assoc, hxd, List.cons_append, skipWs_cons c _ hcws]
        have hfe : afuel (JArr.cons x xs) ≤ g := by
          simp only [jfuel] at hf
          omega
        have hpe := parseElems_dumps (JArr.cons x xs) (ind + 2) g ['\n']
          ('\n' :: spacesL ind) rest
          (by decide) (by simp [spacesL_all]; rfl) hfe (by intro h; cases h)
        have happ : (['\n'] ++ dumpsElems (JArr.cons x xs) (ind + 2)) ++
              ('\n' :: spacesL ind) ++ (']' :: rest)
            = '\n' :: (dumpsElems (JArr.cons x xs) (ind + 2) ++
                (('\n' :: spacesL ind) ++ (']' :: rest))) := by
          simp [List.append_assoc]
        rw [happ] at hpe
        rw [parseVal.eq_def]
        simp only [hskip, List.head?_cons, List.tail_cons]
        rw [hskip2]
        have hcond : ¬((c :: (cs ++ (t ++ (('\n' :: spacesL ind) ++ (']' :: rest))))).head?
            = some ']') := by
          simp only [List.head?_cons, Option.some.injEq]
          exact hcrb
        rw [if_neg hcond]
        simp only [hpe]
        simp
    | obj kvs => cases kvs with
      | nil =>
        have hskip : skipWs (ws ++ dumpsVal (Json.obj JObj.nil) ind ++ rest)
            = '\x7b' :: '\x7d' :: rest := by
          rw [List.append_assoc, skipWs_append _ _ hws]
          show skipWs ('\x7b' :: '\x7d' :: rest) = _
          rw [skipWs_cons '\x7b' _ rfl]
        rw [parseVal.eq_def]
        simp only [hskip, List.head?_cons, List.tail_cons]
        rw [skipWs_cons '\x7d' _ rfl]
        simp
      | cons k v kvs =>
        obtain ⟨t, ht⟩ : ∃ t, dumpsMembers (JObj.cons k v kvs) (ind + 2)
            = spacesL (ind + 2) ++ ('"' :: t) := by
          cases kvs with
          | nil =>
            exact ⟨escChars k ++ ('"' :: ':' :: ' ' :: dumpsVal v (ind + 2)),
              by simp [dumpsMembers, quoteJ, List.append_assoc]⟩
          | cons k2 v2 kvs2 =>
            exact ⟨escChars k ++ ('"' :: ':' :: ' ' :: (dumpsVal v (ind + 2) ++
                ',' :: '\n' :: dumpsMembers (JObj.cons k2 v2 kvs2) (ind + 2))),
              by simp [dumpsMembers, quoteJ, List.append_assoc]⟩
        have hsh : dumpsVal (Json.obj (JObj.cons k v kvs)) ind ++ rest
            = '\x7b' :: ('\n' :: (dumpsMembers (JObj.cons k v kvs) (ind + 2) ++
                (('\n' :: spacesL ind) ++ ('\x7d' :: rest)))) := by
          simp [dumpsVal, List.append_assoc]
        have hskip : skipWs (ws ++ dumpsVal (Json.obj (JObj.cons k v kvs)) ind ++ rest)
            = '\x7b' :: ('\n' :: (dumpsMembers (JObj.cons k v kvs) (ind + 2) ++
                (('\n' :: spacesL ind) ++ ('\x7d' :: rest)))) := by
          rw [List.append_assoc, skipWs_append _ _ hws, hsh, skipWs_cons '\x7b' _ rfl]
        have hskip2 : skipWs ('\n' :: (dumpsMembers (JObj.cons k v kvs) (ind + 2) ++
              (('\n' :: spacesL ind) ++ ('\x7d' :: rest))))
            = '"' :: (t ++ (('\n' :: spacesL ind) ++ ('\x7d' :: rest))) := by
          rw [skipWs_ws_cons '\n' _ rfl, ht]
          rw [List.append_assoc, skipWs_append _ _ (spacesL_all (ind + 2)),
            List.cons_append, skipWs_cons '"' _ rfl]
        have hfe : ofuel (JObj.cons k v kvs) ≤ g := by
          simp only [jfuel] at hf
          omega
        have hpm := parseMembers_dumps (JObj.cons k v kvs) (ind + 2) g ['\n']
          ('\n' :: spacesL ind) rest
          (by decide) (by simp [spacesL_all]; rfl) hfe (by intro h; cases h)
        have happ : (['\n'] ++ dumpsMembers (JObj.cons k v kvs) (ind + 2)) ++
              ('\n' :: spacesL ind) ++ ('\x7d' :: rest)
            = '\n' :: (dumpsMembers (JObj.cons k v kvs) (ind + 2) ++
                (('\n' :: spacesL ind) ++ ('\x7d' :: rest))) := by
          simp [List.append_assoc]
        rw [happ] at hpm
        rw [parseVal.eq_def]
        simp only [hskip, List.head?_cons, List.tail_cons]
        rw [hskip2]
        simp only [List.head?_cons, Option.some.injEq]
        simp only [hpm]
        simp

/-- Parsing serialized elements of a non-empty array followed by the closing
bracket. -/
theorem parseElems_dumps (xs : JArr) (ind fuel : Nat) (ws wsc rest : List Char) :
    ws.all isWsB = true → wsc.all isWsB = true → afuel xs ≤ fuel →
    xs ≠ JArr.nil →
    parseElems fuel (ws ++ dumpsElems xs ind ++ wsc ++ ']' :: rest)
      = some (xs, rest) := by
  intro hws hwsc hf hne
  cases xs with
  | nil => exact absurd rfl hne
  | cons x xs =>
  cases fuel with
  | zero => exact absurd hf (by simp [afuel])
  | succ g => cases xs with
    | nil =>
      have hin : ws ++ dumpsElems (JArr.cons x JArr.nil) ind ++ wsc ++ ']' :: rest
          = (ws ++ spacesL ind) ++ dumpsVal x ind ++ (wsc ++ ']' :: rest) := by
        simp [dumpsElems, List.append_assoc]
      have hfx : jfuel x ≤ g := by
        simp only [afuel] at hf
        omega
      have hpv := parseVal_dumps x ind g (ws ++ spacesL ind) (wsc ++ ']' :: rest)
        (by simp [List.all_append, hws, spacesL_all]) hfx
        (headNotDigit_wsc wsc ']' rest hwsc (by decide))
      have hr1 : skipWs (wsc ++ ']' :: rest) = ']' :: rest := by
        rw [skipWs_append _ _ hwsc, skipWs_cons ']' _ rfl]
      rw [parseElems.eq_def, hin]
      simp only [hpv, Option.bind_eq_bind, Option.some_bind, hr1,
        List.head?_cons, List.tail_cons]
      simp
    | cons y ys =>
      have hin : ws ++ dumpsElems (JArr.cons x (JArr.cons y ys)) ind ++ wsc ++ ']' :: rest
          = (ws ++ spacesL ind) ++ dumpsVal x ind ++
              (',' :: ('\n' :: (dumpsElems (JArr.cons y ys) ind ++ (wsc ++ ']' :: rest)))) := by
        simp [dumpsElems, List.append_assoc]
      have hfx : jfuel x ≤ g := by
        simp only [afuel] at hf
        omega
      have hfys : afuel (JArr.cons y ys) ≤ g := by
        have h1 : afuel (JArr.cons x (JArr.cons y ys))
            = max (jfuel x) (afuel (JArr.cons y ys)) + 1 := rfl
        rw [h1] at hf
        omega
      have hpv := parseVal_dumps x ind g (ws ++ spacesL ind)
        (',' :: ('\n' :: (dumpsElems (JArr.cons y ys) ind ++ (wsc ++ ']' :: rest))))
        (by simp [List.all_append, hws, spacesL_all]) hfx rfl
      have hpe := parseElems_dumps (JArr.cons y ys) ind g ['\n'] wsc rest
        (by decide) hwsc hfys (by intro h; cases h)
      have happ : (['\n'] ++ dumpsElems (JArr.cons y ys) ind) ++ wsc ++ ']' :: rest
          = '\n' :: (dumpsElems (JArr.cons y ys) ind ++ (wsc ++ ']' :: rest)) := by
        simp [List.append_assoc]
      rw [happ] at hpe
      rw [parseElems.eq_def, hin]
      simp only [hpv, Option.bind_eq_bind, Option.some_bind,
        skipWs_cons ',' _ rfl, List.head?_cons, List.tail_cons, hpe]
      simp

/-- Parsing serialized members of a non-empty object followed by the closing
brace. -/
theorem parseMembers_dumps (kvs : JObj) (ind fuel : Nat) (ws wsc rest : List Char) :
    ws.all isWsB = true → wsc.all isWsB = true → ofuel kvs ≤ fuel →
    kvs ≠ JObj.nil →
    parseMembers fuel (ws ++ dumpsMembers kvs ind ++ wsc ++ '\x7d' :: rest)
      = some (kvs, rest) := by
  intro hws hwsc hf hne
  cases kvs with
  | nil => exact absurd rfl hne
  | cons k v kvs =>
  cases fuel with
  | zero => exact absurd hf (by simp [ofuel])
  | succ g => cases kvs with
    | nil =>
      have hfv : jfuel v ≤ g := by
        have h1 : ofuel (JObj.cons k v JObj.nil)
            = max (jfuel v) (ofuel JObj.nil) + 1 := rfl
        rw [h1] at hf
        omega
      have hin : ws ++ dumpsMembers (JObj.cons k v JObj.nil) ind ++ wsc ++ '\x7d' :: rest
          = (ws ++ spacesL ind) ++ ('"' :: (escChars k ++ ('"' :: (':' :: (' ' ::
              (dumpsVal v ind ++ (wsc ++ '\x7d' :: rest))))))) := by
        simp [dumpsMembers, quoteJ, List.append_assoc]
      have hsk : skipWs ((ws ++ spacesL ind) ++ ('"' :: (escChars k ++ ('"' :: (':' :: (' ' ::
              (dumpsVal v ind ++ (wsc ++ '\x7d' :: rest))))))))
          = '"' :: (escChars k ++ ('"' :: (':' :: (' ' ::
              (dumpsVal v ind ++ (wsc ++ '\x7d' :: rest)))))) := by
        rw [skipWs_append _ _ (by simp [List.all_append, hws, spacesL_all]),
          skipWs_cons '"' _ rfl]
      have hpv := parseVal_dumps v ind g [' '] (wsc ++ '\x7d' :: rest)
        (by decide) hfv (headNotDigit_wsc wsc '\x7d' rest hwsc (by decide))
      have happ2 : ([' '] ++ dumpsVal v ind) ++ (wsc ++ '\x7d' :: rest)
          = ' ' :: (dumpsVal v ind ++ (wsc ++ '\x7d' :: rest)) := by
        simp [List.append_assoc]
      rw [happ2] at hpv
      have hr4 : skipWs (wsc ++ '\x7d' :: rest) = '\x7d' :: rest := by
        rw [skipWs_append _ _ hwsc, skipWs_cons '\x7d' _ rfl]
      rw [parseMembers.eq_def, hin]
      simp only [hsk, List.head?_cons, List.tail_cons, parseStr_quoteJ,
        Option.bind_eq_bind, Option.some_bind, skipWs_cons ':' _ rfl,
        hpv, hr4]
      simp
    | cons k2 v2 kvs2 =>
      have hfv : jfuel v ≤ g := by
        have h1 : ofuel (JObj.cons k v (JObj.cons k2 v2 kvs2))
            = max (jfuel v) (ofuel (JObj.cons k2 v2 kvs2)) + 1 := rfl
        rw [h1] at hf
        omega
      have hfkvs : ofuel (JObj.cons k2 v2 kvs2) ≤ g := by
        have h1 : ofuel (JObj.cons k v (JObj.cons k2 v2 kvs2))
            = max (jfuel v) (ofuel (JObj.cons k2 v2 kvs2)) + 1 := rfl
        rw [h1] at hf
        omega
      obtain ⟨R, hR⟩ : ∃ R : List Char,
          R = ',' :: ('\n' :: (dumpsMembers (JObj.cons k2 v2 kvs2) ind ++
            (wsc ++ '\x7d' :: rest))) := ⟨_, rfl⟩
      obtain ⟨T, hT⟩ : ∃ T : List Char,
          T = escChars k ++ ('"' :: (':' :: (' ' :: (dumpsVal v ind ++ R)))) := ⟨_, rfl⟩
      have hin : ws ++ dumpsMembers (JObj.cons k v (JObj.cons k2 v2 kvs2)) ind ++
            wsc ++ '\x7d' :: rest
          = (ws ++ spacesL ind) ++ ('"' :: T) := by
        rw [hT, hR]
        simp [dumpsMembers, quoteJ, List.append_assoc]
      have hsk : skipWs ((ws ++ spacesL ind) ++ ('"' :: T)) = '"' :: T := by
        rw [skipWs_append _ _ (by simp [List.all_append, hws, spacesL_all]),
          skipWs_cons '"' _ rfl]
      have hps : parseStr T = some (k, ':' :: (' ' :: (dumpsVal v ind ++ R))) := by
        rw [hT]
        exact parseStr_quoteJ k _
      have hpv := parseVal_dumps v ind g [' '] R
        (by decide) hfv (by rw [hR]; rfl)
      have happ2 : ([' '] ++ dumpsVal v ind) ++ R = ' ' :: (dumpsVal v ind ++ R) := by
        simp [List.append_assoc]
      rw [happ2] at hpv
      have hpm := parseMembers_dumps (JObj.cons k2 v2 kvs2) ind g ['\n'] wsc rest
        (by decide) hwsc hfkvs (by intro h; cases h)
      have happ3 : (['\n'] ++ dumpsMembers (JObj.cons k2 v2 kvs2) ind) ++
            wsc ++ '\x7d' :: rest
          = '\n' :: (dumpsMembers (JObj.cons k2 v2 kvs2) ind ++
              (wsc ++ '\x7d' :: rest)) := by
        simp [List.append_assoc]
      rw [happ3] at hpm
      rw [hR] at hps hpv
      rw [parseMembers.eq_def, hin]
      simp only [hsk, List.head?_cons, List.tail_cons, hps,
        Option.bind_eq_bind, Option.some_bind, skipWs_cons ':' _ rfl,
        hpv, skipWs_cons ',' _ rfl, hpm]
      simp
end

end CCEM

namespace CCEM

/-- `json.loads` inverts `json.dumps` on every document value. -/
theorem parseDoc_dumps (j : Json) : parseDoc (dumps j) = some j := by
  have hlen : jfuel j ≤ (dumpsVal j 0).length + 1 := by
    have := jfuel_le_length j 0
    omega
  have h := parseVal_dumps j 0 ((dumpsVal j 0).length + 1) [] [] rfl hlen rfl
  simp only [List.nil_append, List.append_nil] at h
  rw [parseDoc]
  show (match parseVal ((dumps j).data.length + 1) (dumps j).data with
    | some (j, rest) => if (skipWs rest).isEmpty then some j else none
    | none => none) = some j
  have hdata : (dumps j).data = dumpsVal j 0 := rfl
  rw [hdata, h]
  rfl

/-- C3: parsing the JSON text written by the emitter yields a document whose
phase names, issue titles and label lists (hence the corresponding sets) are
exactly those of the in-memory literal definitions — no data loss through
serialization. -/
theorem emitted_document_roundtrip (epic_description : String) :
    ∃ doc : Json,
      parseDoc (dumps (output_data epic_description)) = some doc
      ∧ (docPhases doc).map docName = phases.map (fun ph => some ph.name)
      ∧ (docPhases doc).map (fun p => (docIssues p).map docTitle)
          = phases.map (fun ph => ph.issues.map (fun i => some i.title))
      ∧ (docPhases doc).map (fun p => (docIssues p).map docLabels)
          = phases.map (fun ph => ph.issues.map (fun i => i.labels.map some)) :=
  ⟨output_data epic_description, parseDoc_dumps _, rfl, rfl, rfl⟩

end CCEM
